import Mathlib

/-!
# Verification of the minesweeper AI engine (`src/minesweeper.py`)

Shallow embedding of the repository's Python source.  Python `set`s of
coordinates are modelled as duplicate-free `List`s (a deterministic
presentation of the unordered Python set; every operation below is
order-independent in the properties we prove).  Python `int` is `Int`.
Operations that could raise in Python (list indexing, `list.remove` on a
missing element, loop-fuel exhaustion in the remove-while-iterating loop of
`clean_knowledge`) are modelled in `Option`: `none` marks a raised exception.
-/

/-- A board coordinate `(row, column)`, a Python 2-tuple of ints. -/
abbrev Coord := ℤ × ℤ

/-- `set.add`: insert an element into a duplicate-free list modelling a set. -/
def addElem (c : Coord) (l : List Coord) : List Coord :=
  if c ∈ l then l else c :: l

/-- The 3×3 square of coordinates scanned by the two nested
`for i in range(cell[0]-1, cell[0]+2): for j in range(cell[1]-1, cell[1]+2)`
loops (in loop order).  Both `Minesweeper.nearby_mines` and
`MinesweeperAI.add_knowledge` iterate over exactly these nine positions and
skip `cell` itself with an explicit test. -/
def squareAround (cell : Coord) : List Coord :=
  [ (cell.1 - 1, cell.2 - 1), (cell.1 - 1, cell.2), (cell.1 - 1, cell.2 + 1),
    (cell.1,     cell.2 - 1), (cell.1,     cell.2), (cell.1,     cell.2 + 1),
    (cell.1 + 1, cell.2 - 1), (cell.1 + 1, cell.2), (cell.1 + 1, cell.2 + 1) ]

/-- The bounds test `0 <= i < height and 0 <= j < width`. -/
def inGrid (height width : ℤ) (p : Coord) : Prop :=
  0 ≤ p.1 ∧ p.1 < height ∧ 0 ≤ p.2 ∧ p.2 < width

instance (height width : ℤ) (p : Coord) : Decidable (inGrid height width p) := by
  unfold inGrid; infer_instance

/-- One row of the grid: `[(i, 0), (i, 1), ..., (i, w-1)]`. -/
def rowList (i : ℤ) (w : ℤ) : List Coord :=
  (List.range w.toNat).map (fun (j : ℕ) => (i, (j : ℤ)))

/-- All grid coordinates in row-major order, as produced by
`for i in range(self.height): for j in range(self.width)`. -/
def gridList (h w : ℤ) : List Coord :=
  (List.range h.toNat).foldr (fun (i : ℕ) acc => rowList (i : ℤ) w ++ acc) []

/-- The game board (class `Minesweeper`): dimensions and the mine set. -/
structure Minesweeper where
  height : ℤ
  width : ℤ
  mines : List Coord

/-- `Minesweeper.is_mine`. -/
def Minesweeper.is_mine (b : Minesweeper) (c : Coord) : Bool :=
  decide (c ∈ b.mines)

/-- `Minesweeper.nearby_mines`: count of in-bounds mines in the 3×3 square
around `cell`, skipping `cell` itself. -/
def Minesweeper.nearby_mines (b : Minesweeper) (cell : Coord) : ℤ :=
  ((squareAround cell).countP
    (fun p => decide (p ≠ cell ∧ inGrid b.height b.width p ∧ p ∈ b.mines)) : ℕ)

/-- Class `Sentence`: a set of cells and a count of mines among them. -/
structure Sentence where
  cells : List Coord
  count : ℤ
deriving DecidableEq, Repr

/-- `Sentence.__eq__`: cell sets equal (as sets) and counts equal. -/
def Sentence.eqPy (a b : Sentence) : Bool :=
  decide (a.cells ⊆ b.cells) && decide (b.cells ⊆ a.cells) && decide (a.count = b.count)

/-- `Sentence.known_mines`: all of `cells` when `len(cells) == count`, else `∅`. -/
def Sentence.known_mines (s : Sentence) : List Coord :=
  if (s.cells.length : ℤ) = s.count then s.cells else []

/-- `Sentence.known_safes`: all of `cells` when `count == 0` and `cells`
non-empty, else `∅`. -/
def Sentence.known_safes (s : Sentence) : List Coord :=
  if s.count = 0 ∧ s.cells ≠ [] then s.cells else []

/-- `Sentence.mark_mine`: if present, remove the cell and decrement the count. -/
def Sentence.mark_mine (c : Coord) (s : Sentence) : Sentence :=
  if c ∈ s.cells then ⟨s.cells.filter (fun x => decide (x ≠ c)), s.count - 1⟩ else s

/-- `Sentence.mark_safe`: if present, remove the cell (count unchanged). -/
def Sentence.mark_safe (c : Coord) (s : Sentence) : Sentence :=
  if c ∈ s.cells then ⟨s.cells.filter (fun x => decide (x ≠ c)), s.count⟩ else s

/-- The `MinesweeperAI` engine state. -/
structure MinesweeperAI where
  height : ℤ
  width : ℤ
  moves_made : List Coord
  mines : List Coord
  safes : List Coord
  knowledge : List Sentence
deriving DecidableEq, Repr

/-- `MinesweeperAI.__init__`. -/
def initAI (height width : ℤ) : MinesweeperAI :=
  ⟨height, width, [], [], [], []⟩

/-- `MinesweeperAI.mark_mine`: add to `self.mines` and update every sentence. -/
def MinesweeperAI.mark_mine (ai : MinesweeperAI) (c : Coord) : MinesweeperAI :=
  { ai with mines := addElem c ai.mines,
            knowledge := ai.knowledge.map (Sentence.mark_mine c) }

/-- `MinesweeperAI.mark_safe`: add to `self.safes` and update every sentence. -/
def MinesweeperAI.mark_safe (ai : MinesweeperAI) (c : Coord) : MinesweeperAI :=
  { ai with safes := addElem c ai.safes,
            knowledge := ai.knowledge.map (Sentence.mark_safe c) }

/-- `for cell in safe_cells: self.mark_safe(cell)`. -/
def markSafeList (ai : MinesweeperAI) (l : List Coord) : MinesweeperAI :=
  l.foldl MinesweeperAI.mark_safe ai

/-- `for cell in mines: self.mark_mine(cell)`. -/
def markMineList (ai : MinesweeperAI) (l : List Coord) : MinesweeperAI :=
  l.foldl MinesweeperAI.mark_mine ai

/-- Step 3 of `add_knowledge`: the nested loops that build `sur_cells` and
adjust the local `count`.  For each of the nine square positions, if it is in
bounds, not in `moves_made`, not `cell` itself, and not in `safes`: a position
in `self.mines` decrements `count`, any other position is appended to
`sur_cells`. -/
def buildSur (ai : MinesweeperAI) (cell : Coord) (count : ℤ) : List Coord × ℤ :=
  (squareAround cell).foldl
    (fun acc p =>
      if inGrid ai.height ai.width p ∧ p ∉ ai.moves_made ∧ p ≠ cell ∧ p ∉ ai.safes then
        if p ∈ ai.mines then (acc.1, acc.2 - 1) else (acc.1 ++ [p], acc.2)
      else acc)
    ([], count)

/-- The resolution step applied to the sentence at list position `i` — this is
the body of the `for sentence in kl:` loop, and (at the last position) also the
two `if new_sentence.known_safes(): ... if new_sentence.known_mines(): ...`
blocks, whose code is identical.  The gate and the `safe_cells` filter read the
sentence before any marking; the `known_mines` gate reads it again afterwards
(in Python it is the same mutated object; here we re-fetch position `i`, which
`mark_safe` updated in place). -/
def processIndex (ai : MinesweeperAI) (i : ℕ) : Option MinesweeperAI :=
  match ai.knowledge.get? i with
  | none => some ai
  | some sen =>
    let ai2 :=
      if sen.known_safes ≠ [] then
        markSafeList ai ((sen.known_safes).filter
          (fun c => decide (c ∉ ai.safes ∧ c ∉ ai.moves_made)))
      else ai
    match ai2.knowledge.get? i with
    | none => none
    | some sen2 =>
      some (if sen2.known_mines ≠ [] then
        markMineList ai2 ((sen2.known_mines).filter
          (fun c => decide (c ∉ ai2.mines ∧ c ∉ ai2.moves_made)))
      else ai2)

/-- The `for sentence in kl:` loop: process every position of the (fixed-length)
knowledge list in order. -/
def resolveLoop (ai : MinesweeperAI) : Option MinesweeperAI :=
  (List.range ai.knowledge.length).foldl
    (fun o i => o.bind (fun a => processIndex a i)) (some ai)

/-- The test `s1.cells in s2.cells` at line 274/277 of the source.  This is
Python set *membership*, not a subset test: CPython hashes `s1.cells` as a
frozenset and looks it up among the elements of `s2.cells`.  Each element of a
sentence's cell set is a coordinate 2-tuple, never a set, so the lookup always
fails: the expression is `False` for every pair of sentences (and raises
nothing, by the documented frozenset fallback of `set.__contains__`). -/
def cellsInCells (_a _b : List Coord) : Bool :=
  false

/-- The pairwise loop at lines 269–279 building `inferred_knowledges`. -/
def inferredPairs (kl : List Sentence) : List Sentence :=
  (List.range kl.length).foldl
    (fun acc i =>
      (List.range' (i + 1) (kl.length - (i + 1))).foldl
        (fun acc2 j =>
          match kl.get? i, kl.get? j with
          | some s1, some s2 =>
            if cellsInCells s1.cells s2.cells then
              acc2 ++ [⟨s2.cells.filter (fun x => decide (x ∉ s1.cells)),
                        s2.count - s1.count⟩]
            else if cellsInCells s2.cells s1.cells then
              acc2 ++ [⟨s1.cells.filter (fun x => decide (x ∉ s2.cells)),
                        s1.count - s2.count⟩]
            else acc2
          | _, _ => acc2)
        acc)
    []

/-- `MinesweeperAI.clean_knowledge`'s loop: Python's list iterator (`k` is the
iterator position, always advanced by one) over a list that `remove` shrinks in
place.  `remove` deletes the first `__eq__`-equal element and would raise
`ValueError` (`none`) if none matched; `fuel` exhaustion is also `none` (the
caller supplies enough fuel, see `clean_loop_isSome`). -/
def clean_loop : (fuel : ℕ) → (l : List Sentence) → (k cnt : ℕ) →
    Option (List Sentence × ℕ)
  | 0, l, k, cnt => if k < l.length then none else some (l, cnt)
  | fuel + 1, l, k, cnt =>
    if h : k < l.length then
      if (l.get ⟨k, h⟩).cells = [] then
        if l.any (fun y => Sentence.eqPy y (l.get ⟨k, h⟩)) then
          clean_loop fuel (l.eraseP (fun y => Sentence.eqPy y (l.get ⟨k, h⟩)))
            (k + 1) (cnt + 1)
        else none
      else clean_loop fuel l (k + 1) cnt
    else some (l, cnt)

/-- `MinesweeperAI.clean_knowledge`: drop resolved (empty) sentences, returning
the removal count. -/
def MinesweeperAI.clean_knowledge (ai : MinesweeperAI) : Option (MinesweeperAI × ℕ) :=
  (clean_loop (ai.knowledge.length + 1) ai.knowledge 0 0).map
    (fun lc => ({ ai with knowledge := lc.1 }, lc.2))

/-- Steps 1–2 of `add_knowledge`: `self.moves_made.add(cell)` then
`self.mark_safe(cell)`. -/
def MinesweeperAI.record_and_mark (ai : MinesweeperAI) (cell : Coord) : MinesweeperAI :=
  ({ ai with moves_made := addElem cell ai.moves_made }).mark_safe cell

/-- Step 3 of `add_knowledge`: build `sur_cells`/adjusted `count` and append
`Sentence(sur_cells, count)` to the knowledge base. -/
def MinesweeperAI.append_new_sentence (ai : MinesweeperAI) (cell : Coord) (count : ℤ) :
    MinesweeperAI :=
  { ai with knowledge :=
      ai.knowledge ++ [⟨(buildSur ai cell count).1, (buildSur ai cell count).2⟩] }

/-- `self.knowledge.extend(inferred_knowledges)` after the pairwise loop. -/
def MinesweeperAI.extend_inferred (ai : MinesweeperAI) : MinesweeperAI :=
  { ai with knowledge := ai.knowledge ++ inferredPairs ai.knowledge }

/-- `MinesweeperAI.add_knowledge`, line by line:
1) record the move; 2) `mark_safe(cell)`; 3) build and append the new sentence;
then the two resolution blocks on `new_sentence` (= `processIndex` at the last
position); the pairwise inference loop and `extend`; the `for sentence in kl:`
resolution loop; finally `clean_knowledge`. -/
def MinesweeperAI.add_knowledge (ai : MinesweeperAI) (cell : Coord) (count : ℤ) :
    Option MinesweeperAI :=
  let ai2 := (ai.record_and_mark cell).append_new_sentence cell count
  (processIndex ai2 (ai2.knowledge.length - 1)).bind (fun ai3 =>
    (resolveLoop ai3.extend_inferred).bind (fun ai5 =>
      (ai5.clean_knowledge).map (fun lc => lc.1)))

/-- A sequence of `add_knowledge` calls from a starting state. -/
def runTrace (ai : MinesweeperAI) (tr : List (Coord × ℤ)) : Option MinesweeperAI :=
  tr.foldl (fun o cn => o.bind (fun a => a.add_knowledge cn.1 cn.2)) (some ai)

/-- `MinesweeperAI.make_safe_move`; `r` models `random.choice`'s index draw. -/
def MinesweeperAI.make_safe_move (ai : MinesweeperAI) (r : ℕ) :
    Option Coord × MinesweeperAI :=
  let avail := ai.safes.filter (fun c => decide (c ∉ ai.moves_made))
  if h : 0 < avail.length then
    (some (avail.get ⟨r % avail.length, Nat.mod_lt r h⟩), ai)
  else (none, ai)

/-- `MinesweeperAI.make_random_move`; `r` models `random.choice`'s index draw. -/
def MinesweeperAI.make_random_move (ai : MinesweeperAI) (r : ℕ) :
    Option Coord × MinesweeperAI :=
  let possible := (gridList ai.height ai.width).filter
    (fun c => decide (c ∉ ai.moves_made ∧ c ∉ ai.mines))
  if h : 0 < possible.length then
    (some (possible.get ⟨r % possible.length, Nat.mod_lt r h⟩), ai)
  else (none, ai)

/-- A trace of observations is consistent with a fixed board: every probed cell
is in the grid, is not a mine, and its reported count is the board's true
neighbour-mine count. -/
def Consistent (b : Minesweeper) (tr : List (Coord × ℤ)) : Prop :=
  ∀ p ∈ tr, inGrid b.height b.width p.1 ∧ p.1 ∉ b.mines ∧ p.2 = b.nearby_mines p.1

instance (b : Minesweeper) (tr : List (Coord × ℤ)) : Decidable (Consistent b tr) := by
  unfold Consistent; infer_instance

/-! ## Basic lemmas about the set-as-list operations -/

theorem mem_addElem {a c : Coord} {l : List Coord} :
    a ∈ addElem c l ↔ a = c ∨ a ∈ l := by
  unfold addElem
  split <;> simp_all

theorem mem_filter_ne {a c : Coord} {l : List Coord} :
    a ∈ l.filter (fun x => decide (x ≠ c)) ↔ a ∈ l ∧ a ≠ c := by
  simp [List.mem_filter]

theorem addElem_idem (c : Coord) (l : List Coord) :
    addElem c (addElem c l) = addElem c l := by
  unfold addElem
  by_cases h : c ∈ l <;> simp [h]

theorem Sentence.mark_safe_idem (c : Coord) (s : Sentence) :
    Sentence.mark_safe c (Sentence.mark_safe c s) = Sentence.mark_safe c s := by
  unfold Sentence.mark_safe
  by_cases h : c ∈ s.cells <;> simp [h]

theorem Sentence.mark_mine_idem (c : Coord) (s : Sentence) :
    Sentence.mark_mine c (Sentence.mark_mine c s) = Sentence.mark_mine c s := by
  unfold Sentence.mark_mine
  by_cases h : c ∈ s.cells <;> simp [h]

/-! ## C8: idempotence of the engine's mark operations -/

/-- C8: `mark_safe` and `mark_mine` are idempotent: calling either twice on the
same cell leaves the whole engine state (`moves_made`, `safes`, `mines`, and
every sentence of `knowledge`) identical to calling it once. -/
theorem marking_idempotent (ai : MinesweeperAI) (c : Coord) :
    (ai.mark_safe c).mark_safe c = ai.mark_safe c ∧
    (ai.mark_mine c).mark_mine c = ai.mark_mine c := by
  constructor
  · simp only [MinesweeperAI.mark_safe, addElem_idem, List.map_map]
    congr 1
    exact List.map_congr_left (fun s _ => Sentence.mark_safe_idem c s)
  · simp only [MinesweeperAI.mark_mine, addElem_idem, List.map_map]
    congr 1
    exact List.map_congr_left (fun s _ => Sentence.mark_mine_idem c s)

/-! ## C6: the sentence-level fact queries -/

/-- C6: `known_safes` returns exactly `cells` when `count = 0` and `cells` is
non-empty, and `∅` otherwise (in particular a zero-count empty sentence yields
no safe cells); `known_mines` returns exactly `cells` when `|cells| = count`,
and `∅` otherwise. -/
theorem known_queries_exact (s : Sentence) :
    (s.count = 0 ∧ s.cells ≠ [] → s.known_safes = s.cells) ∧
    (¬(s.count = 0 ∧ s.cells ≠ []) → s.known_safes = []) ∧
    ((s.cells.length : ℤ) = s.count → s.known_mines = s.cells) ∧
    ((s.cells.length : ℤ) ≠ s.count → s.known_mines = []) := by
  unfold Sentence.known_safes Sentence.known_mines
  refine ⟨fun h => ?_, fun h => ?_, fun h => ?_, fun h => ?_⟩ <;> simp [h]

/-- Witness for C6 at the concrete sentence `{(0,0)} = 0`: its hypotheses hold
and it yields `known_safes = {(0,0)}` and `known_mines = ∅`. -/
theorem known_queries_exact_witness :
    ((0 : ℤ) = 0 ∧ [((0 : ℤ), (0 : ℤ))] ≠ []) ∧
    Sentence.known_safes ⟨[(0, 0)], 0⟩ = [(0, 0)] ∧
    Sentence.known_mines ⟨[(0, 0)], 0⟩ = [] :=
  ⟨by decide, (known_queries_exact ⟨[(0, 0)], 0⟩).1 (by decide),
    (known_queries_exact ⟨[(0, 0)], 0⟩).2.2.2 (by decide)⟩

/-! ## Grid enumeration lemmas -/

theorem mem_rowList {p : Coord} {i w : ℤ} :
    p ∈ rowList i w ↔ p.1 = i ∧ 0 ≤ p.2 ∧ p.2 < w := by
  obtain ⟨a, b⟩ := p
  simp only [rowList, List.mem_map, List.mem_range, Prod.mk.injEq]
  constructor
  · rintro ⟨j, hj, rfl, rfl⟩
    exact ⟨rfl, Int.natCast_nonneg j, Int.lt_toNat.mp hj⟩
  · rintro ⟨rfl, h0, hw⟩
    refine ⟨b.toNat, Int.lt_toNat.mpr (by rwa [Int.toNat_of_nonneg h0]), rfl, ?_⟩
    rw [Int.toNat_of_nonneg h0]

theorem nodup_rowList (i w : ℤ) : (rowList i w).Nodup := by
  unfold rowList
  refine (List.nodup_range _).map ?_
  intro j k h
  simpa using h

theorem mem_rowFold {p : Coord} {w : ℤ} (L : List ℕ) :
    p ∈ L.foldr (fun (i : ℕ) acc => rowList (i : ℤ) w ++ acc) [] ↔
      ∃ i ∈ L, p ∈ rowList (i : ℤ) w := by
  induction L with
  | nil => simp
  | cons hd tl ih => simp [List.mem_append, ih]

theorem nodup_rowFold {w : ℤ} (L : List ℕ) (hL : L.Nodup) :
    (L.foldr (fun (i : ℕ) acc => rowList (i : ℤ) w ++ acc) []).Nodup := by
  induction L with
  | nil => simp
  | cons hd tl ih =>
    simp only [List.foldr_cons]
    rcases List.nodup_cons.mp hL with ⟨hhd, htl⟩
    refine (nodup_rowList _ _).append (ih htl) ?_
    intro p hp hp'
    rcases (mem_rowFold tl).mp hp' with ⟨i, hi, hrow⟩
    have h1 := (mem_rowList.mp hp).1
    have h2 := (mem_rowList.mp hrow).1
    have hcast : (hd : ℤ) = (i : ℤ) := by rw [← h1, h2]
    have : hd = i := by exact_mod_cast hcast
    exact hhd (this ▸ hi)

theorem mem_gridList {p : Coord} {h w : ℤ} :
    p ∈ gridList h w ↔ inGrid h w p := by
  unfold gridList inGrid
  rw [mem_rowFold]
  constructor
  · rintro ⟨i, hi, hrow⟩
    rcases mem_rowList.mp hrow with ⟨h1, h2, h3⟩
    have := List.mem_range.mp hi
    omega
  · rintro ⟨h1, h2, h3, h4⟩
    refine ⟨p.1.toNat, List.mem_range.mpr (by omega), mem_rowList.mpr ⟨by omega, h3, h4⟩⟩

theorem nodup_gridList (h w : ℤ) : (gridList h w).Nodup :=
  nodup_rowFold _ (List.nodup_range _)

/-! ## C9: `make_safe_move` -/

/-- C9: `make_safe_move` returns an element of `safes − moves_made` whenever
that set is non-empty (`none` exactly when it is empty) and leaves the engine
state unchanged. -/
theorem make_safe_move_spec (ai : MinesweeperAI) (r : ℕ) :
    (ai.make_safe_move r).2 = ai ∧
    (∀ x, (ai.make_safe_move r).1 = some x → x ∈ ai.safes ∧ x ∉ ai.moves_made) ∧
    ((ai.make_safe_move r).1 = none ↔ ∀ x ∈ ai.safes, x ∈ ai.moves_made) := by
  unfold MinesweeperAI.make_safe_move
  dsimp only
  split
  · next hpos =>
    refine ⟨rfl, ?_, ?_⟩
    · rintro x hx
      simp only [Option.some.injEq] at hx
      have hmem : x ∈ ai.safes.filter (fun c => decide (c ∉ ai.moves_made)) := by
        rw [← hx]
        exact List.get_mem _ _ _
      have := List.mem_filter.mp hmem
      simpa using this
    · simp only [reduceCtorEq, false_iff]
      intro hall
      obtain ⟨x, hx⟩ := List.exists_mem_of_length_pos hpos
      have := List.mem_filter.mp hx
      simp only [decide_eq_true_eq] at this
      exact this.2 (hall x this.1)
  · next hpos =>
    refine ⟨rfl, by simp, ?_⟩
    simp only [true_iff]
    intro x hx
    by_contra hnot
    have hmem : x ∈ ai.safes.filter (fun c => decide (c ∉ ai.moves_made)) :=
      List.mem_filter.mpr ⟨hx, by simpa using hnot⟩
    have := List.length_pos_of_mem hmem
    omega

/-- Witness for C9 at a concrete engine state with `safes = {(0,0)}`,
`moves_made = ∅`: the returned move is in `safes` and unplayed. -/
theorem make_safe_move_spec_witness :
    ((0 : ℤ), (0 : ℤ)) ∈ (⟨1, 1, [], [], [(0, 0)], []⟩ : MinesweeperAI).safes ∧
    ((0 : ℤ), (0 : ℤ)) ∉ (⟨1, 1, [], [], [(0, 0)], []⟩ : MinesweeperAI).moves_made :=
  (make_safe_move_spec ⟨1, 1, [], [], [(0, 0)], []⟩ 0).2.1 (0, 0) (by decide)

/-! ## C10: `make_random_move` -/

/-- C10: `make_random_move` returns a grid coordinate outside
`moves_made ∪ mines` whenever one exists, `none` exactly when
`moves_made ∪ mines` covers the grid; the candidate list it draws from is
duplicate-free and every valid coordinate is a possible draw (so a uniform
index draw yields a uniform choice among exactly the valid coordinates). -/
theorem make_random_move_spec (ai : MinesweeperAI) (r : ℕ) :
    (ai.make_random_move r).2 = ai ∧
    (∀ x, (ai.make_random_move r).1 = some x →
      inGrid ai.height ai.width x ∧ x ∉ ai.moves_made ∧ x ∉ ai.mines) ∧
    ((ai.make_random_move r).1 = none ↔
      ∀ x, inGrid ai.height ai.width x → (x ∈ ai.moves_made ∨ x ∈ ai.mines)) ∧
    (∀ x, inGrid ai.height ai.width x → x ∉ ai.moves_made → x ∉ ai.mines →
      ∃ r', (ai.make_random_move r').1 = some x) ∧
    ((gridList ai.height ai.width).filter
      (fun c => decide (c ∉ ai.moves_made ∧ c ∉ ai.mines))).Nodup := by
  refine ⟨?_, ?_, ?_, ?_, (nodup_gridList _ _).filter _⟩
  · unfold MinesweeperAI.make_random_move
    dsimp only
    split <;> rfl
  · intro x hx
    unfold MinesweeperAI.make_random_move at hx
    dsimp only at hx
    split at hx
    · simp only [Option.some.injEq] at hx
      have hmem : x ∈ (gridList ai.height ai.width).filter
          (fun c => decide (c ∉ ai.moves_made ∧ c ∉ ai.mines)) := by
        rw [← hx]
        exact List.get_mem _ _ _
      have h2 := List.mem_filter.mp hmem
      have h3 := mem_gridList.mp h2.1
      simp only [decide_eq_true_eq] at h2
      exact ⟨h3, h2.2⟩
    · simp at hx
  · unfold MinesweeperAI.make_random_move
    dsimp only
    split
    · next hpos =>
      simp only [reduceCtorEq, false_iff]
      intro hall
      obtain ⟨x, hx⟩ := List.exists_mem_of_length_pos hpos
      have h2 := List.mem_filter.mp hx
      simp only [decide_eq_true_eq] at h2
      rcases hall x (mem_gridList.mp h2.1) with h | h
      · exact h2.2.1 h
      · exact h2.2.2 h
    · next hpos =>
      simp only [true_iff]
      intro x hgrid
      by_contra hnot
      push_neg at hnot
      have hmem : x ∈ (gridList ai.height ai.width).filter
          (fun c => decide (c ∉ ai.moves_made ∧ c ∉ ai.mines)) :=
        List.mem_filter.mpr ⟨mem_gridList.mpr hgrid, by simp [hnot.1, hnot.2]⟩
      have := List.length_pos_of_mem hmem
      omega
  · intro x hgrid hmoves hmines
    have hmem : x ∈ (gridList ai.height ai.width).filter
        (fun c => decide (c ∉ ai.moves_made ∧ c ∉ ai.mines)) :=
      List.mem_filter.mpr ⟨mem_gridList.mpr hgrid, by simp [hmoves, hmines]⟩
    rcases List.mem_iff_get.mp hmem with ⟨⟨k, hk⟩, hget⟩
    refine ⟨k, ?_⟩
    unfold MinesweeperAI.make_random_move
    dsimp only
    split
    · next hpos =>
      simp only [Option.some.injEq]
      rw [← hget]
      congr 1
      exact Fin.ext (Nat.mod_eq_of_lt hk)
    · next hpos => omega

/-- Witness for C10 on a 1×2 grid with `(0,0)` already played: the unplayed
in-grid cell `(0,1)` is a possible draw. -/
theorem make_random_move_spec_witness :
    ∃ r', ((⟨1, 2, [(0, 0)], [], [(0, 0)], []⟩ : MinesweeperAI).make_random_move r').1 =
      some (0, 1) :=
  (make_random_move_spec ⟨1, 2, [(0, 0)], [], [(0, 0)], []⟩ 0).2.2.2.1 (0, 1)
    (by decide) (by decide) (by decide)


/-! ## Concrete runs exposing the single-pass / membership-test / cleanup bugs

All runs are on the 2×3 board whose only mine is `(0,1)`; every probed cell is
safe there and every reported count is the true neighbour-mine count. -/

/-- Modelled from the spec (§4.2 step 4b and §8 "Saturation fixed point"): the
saturation pass's subset-subtraction step can still produce a new non-empty,
non-duplicate constraint in this state — i.e. the state is *not* a fixed point
of the pass the spec describes. -/
def specPassDerivesNew (s : MinesweeperAI) : Prop :=
  ∃ A ∈ s.knowledge, ∃ B ∈ s.knowledge, A ≠ B ∧ A.cells ⊆ B.cells ∧
    (B.cells.filter (fun x => decide (x ∉ A.cells))) ≠ [] ∧
    ∀ t ∈ s.knowledge,
      Sentence.eqPy t ⟨B.cells.filter (fun x => decide (x ∉ A.cells)),
                       B.count - A.count⟩ = false

instance (s : MinesweeperAI) : Decidable (specPassDerivesNew s) := by
  unfold specPassDerivesNew; infer_instance

/-- State after observation `(1,0) ↦ 1`. -/
def aiT1 : MinesweeperAI :=
  ⟨2, 3, [(1, 0)], [], [(1, 0)], [⟨[(0, 0), (0, 1), (1, 1)], 1⟩]⟩

/-- State after observations `(1,0) ↦ 1`, `(1,1) ↦ 1`. -/
def aiC1 : MinesweeperAI :=
  ⟨2, 3, [(1, 1), (1, 0)], [], [(1, 1), (1, 0)],
    [⟨[(0, 0), (0, 1)], 1⟩, ⟨[(0, 0), (0, 1), (0, 2), (1, 2)], 1⟩]⟩

/-- State after observations `(1,0) ↦ 1`, `(1,1) ↦ 1`, `(1,2) ↦ 1`. -/
def aiT3 : MinesweeperAI :=
  ⟨2, 3, [(1, 2), (1, 1), (1, 0)], [], [(1, 2), (1, 1), (1, 0)],
    [⟨[(0, 0), (0, 1)], 1⟩, ⟨[(0, 0), (0, 1), (0, 2)], 1⟩, ⟨[(0, 1), (0, 2)], 1⟩]⟩

/-- State after observations `(1,0) ↦ 1`, `(1,1) ↦ 1`, `(1,2) ↦ 1`, `(0,0) ↦ 1`. -/
def aiC7 : MinesweeperAI :=
  ⟨2, 3, [(0, 0), (1, 2), (1, 1), (1, 0)], [(0, 1)],
    [(0, 2), (0, 0), (1, 2), (1, 1), (1, 0)], [⟨[], 0⟩, ⟨[], 0⟩]⟩

/-- State after observations `(1,0) ↦ 1`, `(1,2) ↦ 1`. -/
def aiU2 : MinesweeperAI :=
  ⟨2, 3, [(1, 2), (1, 0)], [], [(1, 2), (1, 0)],
    [⟨[(0, 0), (0, 1), (1, 1)], 1⟩, ⟨[(0, 1), (0, 2), (1, 1)], 1⟩]⟩

/-- State after observations `(1,0) ↦ 1`, `(1,2) ↦ 1`, `(1,1) ↦ 1`. -/
def aiC2 : MinesweeperAI :=
  ⟨2, 3, [(1, 1), (1, 2), (1, 0)], [], [(1, 1), (1, 2), (1, 0)],
    [⟨[(0, 0), (0, 1)], 1⟩, ⟨[(0, 1), (0, 2)], 1⟩, ⟨[(0, 0), (0, 1), (0, 2)], 1⟩]⟩

theorem call_T7_1 : (initAI 2 3).add_knowledge (1, 0) 1 = some aiT1 := by
  have e1 : (initAI 2 3).record_and_mark (1, 0) =
      ⟨2, 3, [(1, 0)], [], [(1, 0)], []⟩ := by decide
  have e2 : (⟨2, 3, [(1, 0)], [], [(1, 0)], []⟩ : MinesweeperAI).append_new_sentence
      (1, 0) 1 = aiT1 := by decide
  have e3 : processIndex aiT1 (aiT1.knowledge.length - 1) = some aiT1 := by decide
  have e4 : aiT1.extend_inferred = aiT1 := by decide
  have e5 : resolveLoop aiT1 = some aiT1 := by decide
  have e6 : aiT1.clean_knowledge = some (aiT1, 0) := by decide
  rw [MinesweeperAI.add_knowledge, e1, e2, e3]
  simp only [Option.some_bind, e4, e5, e6, Option.map_some']

theorem call_T7_2 : aiT1.add_knowledge (1, 1) 1 = some aiC1 := by
  have e1 : aiT1.record_and_mark (1, 1) =
      ⟨2, 3, [(1, 1), (1, 0)], [], [(1, 1), (1, 0)],
        [⟨[(0, 0), (0, 1)], 1⟩]⟩ := by decide
  have e2 : (⟨2, 3, [(1, 1), (1, 0)], [], [(1, 1), (1, 0)],
      [⟨[(0, 0), (0, 1)], 1⟩]⟩ : MinesweeperAI).append_new_sentence (1, 1) 1 =
      aiC1 := by decide
  have e3 : processIndex aiC1 (aiC1.knowledge.length - 1) = some aiC1 := by decide
  have e4 : aiC1.extend_inferred = aiC1 := by decide
  have e5 : resolveLoop aiC1 = some aiC1 := by decide
  have e6 : aiC1.clean_knowledge = some (aiC1, 0) := by decide
  rw [MinesweeperAI.add_knowledge, e1, e2, e3]
  simp only [Option.some_bind, e4, e5, e6, Option.map_some']

theorem call_T7_3 : aiC1.add_knowledge (1, 2) 1 = some aiT3 := by
  have e1 : aiC1.record_and_mark (1, 2) =
      ⟨2, 3, [(1, 2), (1, 1), (1, 0)], [], [(1, 2), (1, 1), (1, 0)],
        [⟨[(0, 0), (0, 1)], 1⟩, ⟨[(0, 0), (0, 1), (0, 2)], 1⟩]⟩ := by decide
  have e2 : (⟨2, 3, [(1, 2), (1, 1), (1, 0)], [], [(1, 2), (1, 1), (1, 0)],
      [⟨[(0, 0), (0, 1)], 1⟩, ⟨[(0, 0), (0, 1), (0, 2)], 1⟩]⟩ :
        MinesweeperAI).append_new_sentence (1, 2) 1 = aiT3 := by decide
  have e3 : processIndex aiT3 (aiT3.knowledge.length - 1) = some aiT3 := by decide
  have e4 : aiT3.extend_inferred = aiT3 := by decide
  have e5 : resolveLoop aiT3 = some aiT3 := by decide
  have e6 : aiT3.clean_knowledge = some (aiT3, 0) := by decide
  rw [MinesweeperAI.add_knowledge, e1, e2, e3]
  simp only [Option.some_bind, e4, e5, e6, Option.map_some']

theorem call_T7_4 : aiT3.add_knowledge (0, 0) 1 = some aiC7 := by
  have e1 : aiT3.record_and_mark (0, 0) =
      ⟨2, 3, [(0, 0), (1, 2), (1, 1), (1, 0)], [],
        [(0, 0), (1, 2), (1, 1), (1, 0)],
        [⟨[(0, 1)], 1⟩, ⟨[(0, 1), (0, 2)], 1⟩, ⟨[(0, 1), (0, 2)], 1⟩]⟩ := by decide
  have e2 : (⟨2, 3, [(0, 0), (1, 2), (1, 1), (1, 0)], [],
      [(0, 0), (1, 2), (1, 1), (1, 0)],
      [⟨[(0, 1)], 1⟩, ⟨[(0, 1), (0, 2)], 1⟩, ⟨[(0, 1), (0, 2)], 1⟩]⟩ :
        MinesweeperAI).append_new_sentence (0, 0) 1 =
      ⟨2, 3, [(0, 0), (1, 2), (1, 1), (1, 0)], [],
        [(0, 0), (1, 2), (1, 1), (1, 0)],
        [⟨[(0, 1)], 1⟩, ⟨[(0, 1), (0, 2)], 1⟩, ⟨[(0, 1), (0, 2)], 1⟩,
         ⟨[(0, 1)], 1⟩]⟩ := by decide
  have e3 : processIndex
      (⟨2, 3, [(0, 0), (1, 2), (1, 1), (1, 0)], [],
        [(0, 0), (1, 2), (1, 1), (1, 0)],
        [⟨[(0, 1)], 1⟩, ⟨[(0, 1), (0, 2)], 1⟩, ⟨[(0, 1), (0, 2)], 1⟩,
         ⟨[(0, 1)], 1⟩]⟩ : MinesweeperAI)
      ((⟨2, 3, [(0, 0), (1, 2), (1, 1), (1, 0)], [],
        [(0, 0), (1, 2), (1, 1), (1, 0)],
        [⟨[(0, 1)], 1⟩, ⟨[(0, 1), (0, 2)], 1⟩, ⟨[(0, 1), (0, 2)], 1⟩,
         ⟨[(0, 1)], 1⟩]⟩ : MinesweeperAI).knowledge.length - 1) =
      some ⟨2, 3, [(0, 0), (1, 2), (1, 1), (1, 0)], [(0, 1)],
        [(0, 0), (1, 2), (1, 1), (1, 0)],
        [⟨[], 0⟩, ⟨[(0, 2)], 0⟩, ⟨[(0, 2)], 0⟩, ⟨[], 0⟩]⟩ := by decide
  have e4 : (⟨2, 3, [(0, 0), (1, 2), (1, 1), (1, 0)], [(0, 1)],
      [(0, 0), (1, 2), (1, 1), (1, 0)],
      [⟨[], 0⟩, ⟨[(0, 2)], 0⟩, ⟨[(0, 2)], 0⟩, ⟨[], 0⟩]⟩ :
        MinesweeperAI).extend_inferred =
      ⟨2, 3, [(0, 0), (1, 2), (1, 1), (1, 0)], [(0, 1)],
        [(0, 0), (1, 2), (1, 1), (1, 0)],
        [⟨[], 0⟩, ⟨[(0, 2)], 0⟩, ⟨[(0, 2)], 0⟩, ⟨[], 0⟩]⟩ := by decide
  have e5 : resolveLoop
      (⟨2, 3, [(0, 0), (1, 2), (1, 1), (1, 0)], [(0, 1)],
        [(0, 0), (1, 2), (1, 1), (1, 0)],
        [⟨[], 0⟩, ⟨[(0, 2)], 0⟩, ⟨[(0, 2)], 0⟩, ⟨[], 0⟩]⟩ : MinesweeperAI) =
      some ⟨2, 3, [(0, 0), (1, 2), (1, 1), (1, 0)], [(0, 1)],
        [(0, 2), (0, 0), (1, 2), (1, 1), (1, 0)],
        [⟨[], 0⟩, ⟨[], 0⟩, ⟨[], 0⟩, ⟨[], 0⟩]⟩ := by decide
  have e6 : (⟨2, 3, [(0, 0), (1, 2), (1, 1), (1, 0)], [(0, 1)],
      [(0, 2), (0, 0), (1, 2), (1, 1), (1, 0)],
      [⟨[], 0⟩, ⟨[], 0⟩, ⟨[], 0⟩, ⟨[], 0⟩]⟩ : MinesweeperAI).clean_knowledge =
      some (aiC7, 2) := by decide
  rw [MinesweeperAI.add_knowledge, e1, e2, e3]
  simp only [Option.some_bind, e4, e5, e6, Option.map_some']

theorem call_T2_2 : aiT1.add_knowledge (1, 2) 1 = some aiU2 := by
  have e1 : aiT1.record_and_mark (1, 2) =
      ⟨2, 3, [(1, 2), (1, 0)], [], [(1, 2), (1, 0)],
        [⟨[(0, 0), (0, 1), (1, 1)], 1⟩]⟩ := by decide
  have e2 : (⟨2, 3, [(1, 2), (1, 0)], [], [(1, 2), (1, 0)],
      [⟨[(0, 0), (0, 1), (1, 1)], 1⟩]⟩ : MinesweeperAI).append_new_sentence
      (1, 2) 1 = aiU2 := by decide
  have e3 : processIndex aiU2 (aiU2.knowledge.length - 1) = some aiU2 := by decide
  have e4 : aiU2.extend_inferred = aiU2 := by decide
  have e5 : resolveLoop aiU2 = some aiU2 := by decide
  have e6 : aiU2.clean_knowledge = some (aiU2, 0) := by decide
  rw [MinesweeperAI.add_knowledge, e1, e2, e3]
  simp only [Option.some_bind, e4, e5, e6, Option.map_some']

theorem call_T2_3 : aiU2.add_knowledge (1, 1) 1 = some aiC2 := by
  have e1 : aiU2.record_and_mark (1, 1) =
      ⟨2, 3, [(1, 1), (1, 2), (1, 0)], [], [(1, 1), (1, 2), (1, 0)],
        [⟨[(0, 0), (0, 1)], 1⟩, ⟨[(0, 1), (0, 2)], 1⟩]⟩ := by decide
  have e2 : (⟨2, 3, [(1, 1), (1, 2), (1, 0)], [], [(1, 1), (1, 2), (1, 0)],
      [⟨[(0, 0), (0, 1)], 1⟩, ⟨[(0, 1), (0, 2)], 1⟩]⟩ :
        MinesweeperAI).append_new_sentence (1, 1) 1 = aiC2 := by decide
  have e3 : processIndex aiC2 (aiC2.knowledge.length - 1) = some aiC2 := by decide
  have e4 : aiC2.extend_inferred = aiC2 := by decide
  have e5 : resolveLoop aiC2 = some aiC2 := by decide
  have e6 : aiC2.clean_knowledge = some (aiC2, 0) := by decide
  rw [MinesweeperAI.add_knowledge, e1, e2, e3]
  simp only [Option.some_bind, e4, e5, e6, Option.map_some']

theorem runTrace_C1 :
    runTrace (initAI 2 3) [((1, 0), 1), ((1, 1), 1)] = some aiC1 := by
  simp only [runTrace, List.foldl_cons, List.foldl_nil, Option.some_bind,
    call_T7_1, call_T7_2]

theorem runTrace_C2 :
    runTrace (initAI 2 3) [((1, 0), 1), ((1, 2), 1), ((1, 1), 1)] = some aiC2 := by
  simp only [runTrace, List.foldl_cons, List.foldl_nil, Option.some_bind,
    call_T7_1, call_T2_2, call_T2_3]

theorem runTrace_C7 :
    runTrace (initAI 2 3) [((1, 0), 1), ((1, 1), 1), ((1, 2), 1), ((0, 0), 1)] =
      some aiC7 := by
  simp only [runTrace, List.foldl_cons, List.foldl_nil, Option.some_bind,
    call_T7_1, call_T7_2, call_T7_3, call_T7_4]

/-- C1 (counterexample): after two board-consistent observations the state is
not a fixed point of the saturation pass: the knowledge base holds
`A = {(0,0),(0,1)} = 1` and `B = {(0,0),(0,1),(0,2),(1,2)} = 1` with
`A.cells ⊆ B.cells`, the derived constraint `(B − A, 0)` is absent, and the
cells `(0,2)`, `(1,2)` — safe by chaining through the intermediate constraint —
are not in `safes`. -/
theorem single_pass_not_fixed_point :
    Consistent ⟨2, 3, [(0, 1)]⟩ [((1, 0), 1), ((1, 1), 1)] ∧
    runTrace (initAI 2 3) [((1, 0), 1), ((1, 1), 1)] = some aiC1 ∧
    specPassDerivesNew aiC1 ∧
    ((1, 2) : Coord) ∉ aiC1.safes ∧ ((0, 2) : Coord) ∉ aiC1.safes ∧
    (⟨[(0, 0), (0, 1)], 1⟩ : Sentence) ∈ aiC1.knowledge ∧
    (⟨[(0, 0), (0, 1), (0, 2), (1, 2)], 1⟩ : Sentence) ∈ aiC1.knowledge ∧
    (⟨[(0, 0), (0, 1)], 1⟩ : Sentence).cells ⊆
      (⟨[(0, 0), (0, 1), (0, 2), (1, 2)], 1⟩ : Sentence).cells :=
  ⟨by decide, runTrace_C1, by decide, by decide, by decide, by decide, by decide,
    by decide⟩

/-- C2 (counterexample): the spec's own example pair `{(0,0),(0,1),(0,2)} = 1`
and `{(0,0),(0,1)} = 1` sits in the knowledge base after three board-consistent
observations, yet no constraint equal to the subset-subtraction result
`{(0,2)} = 0` is ever appended and `(0,2)` is not marked safe: the source's
pair test `s1.cells in s2.cells` is set membership, always false here. -/
theorem subset_subtraction_never_fires :
    Consistent ⟨2, 3, [(0, 1)]⟩ [((1, 0), 1), ((1, 2), 1), ((1, 1), 1)] ∧
    runTrace (initAI 2 3) [((1, 0), 1), ((1, 2), 1), ((1, 1), 1)] = some aiC2 ∧
    (⟨[(0, 0), (0, 1)], 1⟩ : Sentence) ∈ aiC2.knowledge ∧
    (⟨[(0, 0), (0, 1), (0, 2)], 1⟩ : Sentence) ∈ aiC2.knowledge ∧
    (⟨[(0, 0), (0, 1)], 1⟩ : Sentence).cells ⊆
      (⟨[(0, 0), (0, 1), (0, 2)], 1⟩ : Sentence).cells ∧
    cellsInCells [(0, 0), (0, 1)] [(0, 0), (0, 1), (0, 2)] = false ∧
    (∀ t ∈ aiC2.knowledge, Sentence.eqPy t ⟨[(0, 2)], 0⟩ = false) ∧
    ((0, 2) : Coord) ∉ aiC2.safes :=
  ⟨by decide, runTrace_C2, by decide, by decide, by decide, rfl, by decide,
    by decide⟩

/-- C7 (counterexample): after a board-consistent call sequence,
`add_knowledge` returns with the knowledge base still holding two sentences
with empty cell sets — which are moreover equal under the equality contract:
`clean_knowledge` removes from the list while iterating over it, skipping the
element that slides into the removed slot, and no duplicate check exists. -/
theorem clean_leaves_empty_duplicates :
    Consistent ⟨2, 3, [(0, 1)]⟩
      [((1, 0), 1), ((1, 1), 1), ((1, 2), 1), ((0, 0), 1)] ∧
    runTrace (initAI 2 3) [((1, 0), 1), ((1, 1), 1), ((1, 2), 1), ((0, 0), 1)] =
      some aiC7 ∧
    aiC7.knowledge = [⟨[], 0⟩, ⟨[], 0⟩] ∧
    (∃ s ∈ aiC7.knowledge, s.cells = []) ∧
    aiC7.knowledge.get? 0 = some ⟨[], 0⟩ ∧ aiC7.knowledge.get? 1 = some ⟨[], 0⟩ ∧
    Sentence.eqPy ⟨[], 0⟩ ⟨[], 0⟩ = true :=
  ⟨by decide, runTrace_C7, rfl, by decide, rfl, rfl, by decide⟩

/-! ## C5: construction of the new sentence -/

theorem mem_squareAround {p c : Coord} :
    p ∈ squareAround c ↔
      c.1 - 1 ≤ p.1 ∧ p.1 ≤ c.1 + 1 ∧ c.2 - 1 ≤ p.2 ∧ p.2 ≤ c.2 + 1 := by
  obtain ⟨a, b⟩ := p
  obtain ⟨x, y⟩ := c
  simp [squareAround, Prod.ext_iff]
  omega

theorem nodup_squareAround (c : Coord) : (squareAround c).Nodup := by
  obtain ⟨x, y⟩ := c
  simp [squareAround, Prod.ext_iff]
  omega

/-- The condition under which the nested loop of step 3 appends a position to
`sur_cells`. -/
def keepP (ai : MinesweeperAI) (cell p : Coord) : Prop :=
  inGrid ai.height ai.width p ∧ p ∉ ai.moves_made ∧ p ≠ cell ∧ p ∉ ai.safes ∧
    p ∉ ai.mines

instance (ai : MinesweeperAI) (cell p : Coord) : Decidable (keepP ai cell p) := by
  unfold keepP; infer_instance

/-- The condition under which the nested loop of step 3 decrements `count`. -/
def decrP (ai : MinesweeperAI) (cell p : Coord) : Prop :=
  inGrid ai.height ai.width p ∧ p ∉ ai.moves_made ∧ p ≠ cell ∧ p ∉ ai.safes ∧
    p ∈ ai.mines

instance (ai : MinesweeperAI) (cell p : Coord) : Decidable (decrP ai cell p) := by
  unfold decrP; infer_instance

theorem buildSur_foldl (ai : MinesweeperAI) (cell : Coord) (L : List Coord) :
    ∀ (acc : List Coord) (c : ℤ),
      L.foldl
        (fun acc p =>
          if inGrid ai.height ai.width p ∧ p ∉ ai.moves_made ∧ p ≠ cell ∧ p ∉ ai.safes then
            if p ∈ ai.mines then (acc.1, acc.2 - 1) else (acc.1 ++ [p], acc.2)
          else acc)
        (acc, c) =
      (acc ++ L.filter (fun p => decide (keepP ai cell p)),
       c - (L.countP (fun p => decide (decrP ai cell p)) : ℕ)) := by
  induction L with
  | nil => intro acc c; simp
  | cons hd tl ih =>
    intro acc c
    by_cases hcond : inGrid ai.height ai.width hd ∧ hd ∉ ai.moves_made ∧
        hd ≠ cell ∧ hd ∉ ai.safes
    · by_cases hm : hd ∈ ai.mines
      · have hk : ¬ keepP ai cell hd := fun h => h.2.2.2.2 hm
        have hd' : decrP ai cell hd :=
          ⟨hcond.1, hcond.2.1, hcond.2.2.1, hcond.2.2.2, hm⟩
        simp only [List.foldl_cons, if_pos hcond, if_pos hm, ih,
          List.filter_cons, List.countP_cons]
        rw [if_neg (by simpa using hk)]
        simp only [decide_eq_true_eq]
        rw [if_pos hd']
        simp only [Prod.mk.injEq]
        exact ⟨trivial, by push_cast; ring⟩
      · have hk : keepP ai cell hd :=
          ⟨hcond.1, hcond.2.1, hcond.2.2.1, hcond.2.2.2, hm⟩
        have hd' : ¬ decrP ai cell hd := fun h => hm h.2.2.2.2
        simp only [List.foldl_cons, if_pos hcond, if_neg hm, ih,
          List.filter_cons, List.countP_cons]
        rw [if_pos (by simpa using hk)]
        simp only [decide_eq_true_eq]
        rw [if_neg hd']
        simp only [Prod.mk.injEq]
        exact ⟨by simp, by push_cast; ring⟩
    · have hk : ¬ keepP ai cell hd := fun h => hcond ⟨h.1, h.2.1, h.2.2.1, h.2.2.2.1⟩
      have hd' : ¬ decrP ai cell hd := fun h => hcond ⟨h.1, h.2.1, h.2.2.1, h.2.2.2.1⟩
      simp only [List.foldl_cons, if_neg hcond, ih, List.filter_cons,
        List.countP_cons]
      rw [if_neg (by simpa using hk)]
      simp only [decide_eq_true_eq]
      rw [if_neg hd']
      simp

theorem buildSur_eq (ai : MinesweeperAI) (cell : Coord) (count : ℤ) :
    buildSur ai cell count =
      ((squareAround cell).filter (fun p => decide (keepP ai cell p)),
       count -
         ((squareAround cell).countP (fun p => decide (decrP ai cell p)) : ℕ)) := by
  unfold buildSur
  rw [buildSur_foldl]
  simp

/-- Modelled from the spec §4.2 step 2: "all grid-adjacent coordinates (up to
8, fewer at edges/corners) to `cell`, excluding `cell` itself" — adjacency
alone, before the in-grid restriction. -/
def specAdjacent (cell p : Coord) : Prop :=
  p ≠ cell ∧ cell.1 - 1 ≤ p.1 ∧ p.1 ≤ cell.1 + 1 ∧ cell.2 - 1 ≤ p.2 ∧
    p.2 ≤ cell.2 + 1

instance (cell p : Coord) : Decidable (specAdjacent cell p) := by
  unfold specAdjacent; infer_instance

/-- State after `add_observation((1,1), 0)` on a fresh 3×3 engine. -/
def aiC5 : MinesweeperAI :=
  ⟨3, 3, [(1, 1)], [],
    [(2, 2), (2, 1), (2, 0), (1, 2), (1, 0), (0, 2), (0, 1), (0, 0), (1, 1)], []⟩

theorem call_T5 : (initAI 3 3).add_knowledge (1, 1) 0 = some aiC5 := by
  have e1 : (initAI 3 3).record_and_mark (1, 1) =
      ⟨3, 3, [(1, 1)], [], [(1, 1)], []⟩ := by decide
  have e2 : (⟨3, 3, [(1, 1)], [], [(1, 1)], []⟩ :
      MinesweeperAI).append_new_sentence (1, 1) 0 =
      ⟨3, 3, [(1, 1)], [], [(1, 1)],
        [⟨[(0, 0), (0, 1), (0, 2), (1, 0), (1, 2), (2, 0), (2, 1), (2, 2)], 0⟩]⟩ := by
    decide
  have e3 : processIndex
      (⟨3, 3, [(1, 1)], [], [(1, 1)],
        [⟨[(0, 0), (0, 1), (0, 2), (1, 0), (1, 2), (2, 0), (2, 1), (2, 2)], 0⟩]⟩ :
          MinesweeperAI)
      ((⟨3, 3, [(1, 1)], [], [(1, 1)],
        [⟨[(0, 0), (0, 1), (0, 2), (1, 0), (1, 2), (2, 0), (2, 1), (2, 2)], 0⟩]⟩ :
          MinesweeperAI).knowledge.length - 1) =
      some ⟨3, 3, [(1, 1)], [],
        [(2, 2), (2, 1), (2, 0), (1, 2), (1, 0), (0, 2), (0, 1), (0, 0), (1, 1)],
        [⟨[], 0⟩]⟩ := by decide
  have e4 : (⟨3, 3, [(1, 1)], [],
      [(2, 2), (2, 1), (2, 0), (1, 2), (1, 0), (0, 2), (0, 1), (0, 0), (1, 1)],
      [⟨[], 0⟩]⟩ : MinesweeperAI).extend_inferred =
      ⟨3, 3, [(1, 1)], [],
        [(2, 2), (2, 1), (2, 0), (1, 2), (1, 0), (0, 2), (0, 1), (0, 0), (1, 1)],
        [⟨[], 0⟩]⟩ := by decide
  have e5 : resolveLoop
      (⟨3, 3, [(1, 1)], [],
        [(2, 2), (2, 1), (2, 0), (1, 2), (1, 0), (0, 2), (0, 1), (0, 0), (1, 1)],
        [⟨[], 0⟩]⟩ : MinesweeperAI) =
      some ⟨3, 3, [(1, 1)], [],
        [(2, 2), (2, 1), (2, 0), (1, 2), (1, 0), (0, 2), (0, 1), (0, 0), (1, 1)],
        [⟨[], 0⟩]⟩ := by decide
  have e6 : (⟨3, 3, [(1, 1)], [],
      [(2, 2), (2, 1), (2, 0), (1, 2), (1, 0), (0, 2), (0, 1), (0, 0), (1, 1)],
      [⟨[], 0⟩]⟩ : MinesweeperAI).clean_knowledge = some (aiC5, 1) := by decide
  rw [MinesweeperAI.add_knowledge, e1, e2, e3]
  simp only [Option.some_bind, e4, e5, e6, Option.map_some']

/-- C5: `add_observation` builds its new constraint from exactly the in-grid
neighbours of `cell` (adjacent cells other than `cell` itself), excluding
coordinates in `moves_made` or `safes`, with `count` decremented once per
remaining neighbour in `mines` (that neighbour also excluded); the constraint
is appended to the knowledge base.  On a fresh 3×3 engine,
`add_observation((1,1), 0)` marks all eight neighbours of `(1,1)` safe. -/
theorem new_sentence_construction :
    (∀ (ai : MinesweeperAI) (cell : Coord) (count : ℤ),
      (∀ p, p ∈ (buildSur ai cell count).1 ↔
        specAdjacent cell p ∧ inGrid ai.height ai.width p ∧
        p ∉ ai.moves_made ∧ p ∉ ai.safes ∧ p ∉ ai.mines) ∧
      (buildSur ai cell count).2 = count -
        ((gridList ai.height ai.width).countP
          (fun p => decide (specAdjacent cell p ∧ p ∉ ai.moves_made ∧
            p ∉ ai.safes ∧ p ∈ ai.mines)) : ℕ) ∧
      (buildSur ai cell count).1.Nodup ∧
      (ai.append_new_sentence cell count).knowledge =
        ai.knowledge ++ [⟨(buildSur ai cell count).1, (buildSur ai cell count).2⟩]) ∧
    runTrace (initAI 3 3) [((1, 1), 0)] = some aiC5 ∧
    ∀ c ∈ ([(0, 0), (0, 1), (0, 2), (1, 0), (1, 2), (2, 0), (2, 1), (2, 2)] :
      List Coord), c ∈ aiC5.safes := by
  refine ⟨fun ai cell count => ⟨?_, ?_, ?_, rfl⟩, ?_, by decide⟩
  · intro p
    rw [buildSur_eq]
    simp only [List.mem_filter, decide_eq_true_eq]
    constructor
    · rintro ⟨hsq, hg, hm, hne, hs, hmi⟩
      have hb := mem_squareAround.mp hsq
      exact ⟨⟨hne, hb.1, hb.2.1, hb.2.2.1, hb.2.2.2⟩, hg, hm, hs, hmi⟩
    · rintro ⟨⟨hne, h1, h2, h3, h4⟩, hg, hm, hs, hmi⟩
      exact ⟨mem_squareAround.mpr ⟨h1, h2, h3, h4⟩, hg, hm, hne, hs, hmi⟩
  · have hcnt : (squareAround cell).countP (fun p => decide (decrP ai cell p)) =
        (gridList ai.height ai.width).countP
          (fun p => decide (specAdjacent cell p ∧ p ∉ ai.moves_made ∧
            p ∉ ai.safes ∧ p ∈ ai.mines)) := by
      rw [List.countP_eq_length_filter, List.countP_eq_length_filter]
      apply List.Perm.length_eq
      rw [List.perm_ext_iff_of_nodup ((nodup_squareAround cell).filter _)
        ((nodup_gridList _ _).filter _)]
      intro x
      simp only [List.mem_filter, decide_eq_true_eq, mem_gridList]
      constructor
      · rintro ⟨hsq, hg, hm, hne, hs, hmi⟩
        have hb := mem_squareAround.mp hsq
        exact ⟨hg, ⟨hne, hb.1, hb.2.1, hb.2.2.1, hb.2.2.2⟩, hm, hs, hmi⟩
      · rintro ⟨hg, ⟨hne, h1, h2, h3, h4⟩, hm, hs, hmi⟩
        exact ⟨mem_squareAround.mpr ⟨h1, h2, h3, h4⟩, hg, hm, hne, hs, hmi⟩
    rw [buildSur_eq]
    dsimp only
    rw [hcnt]
  · rw [buildSur_eq]
    dsimp only
    exact (nodup_squareAround cell).filter _
  · simp only [runTrace, List.foldl_cons, List.foldl_nil, Option.some_bind, call_T5]

/-- Witness for C5: the scenario conclusion applied at the concrete neighbour
`(0,0)` of `(1,1)`, its membership hypothesis discharged by evaluation. -/
theorem new_sentence_construction_witness :
    ((0, 0) : Coord) ∈ aiC5.safes :=
  new_sentence_construction.2.2 (0, 0) (by decide)

/-! ## C3: no call raises -/

theorem knowledge_length_mark_safe (ai : MinesweeperAI) (c : Coord) :
    (ai.mark_safe c).knowledge.length = ai.knowledge.length := by
  simp [MinesweeperAI.mark_safe]

theorem knowledge_length_mark_mine (ai : MinesweeperAI) (c : Coord) :
    (ai.mark_mine c).knowledge.length = ai.knowledge.length := by
  simp [MinesweeperAI.mark_mine]

theorem knowledge_length_markSafeList (l : List Coord) :
    ∀ ai : MinesweeperAI, (markSafeList ai l).knowledge.length = ai.knowledge.length := by
  induction l with
  | nil => intro ai; rfl
  | cons hd tl ih =>
    intro ai
    unfold markSafeList at ih ⊢
    rw [List.foldl_cons, ih, knowledge_length_mark_safe]

theorem processIndex_isSome (ai : MinesweeperAI) (i : ℕ) :
    (processIndex ai i).isSome := by
  unfold processIndex
  split
  · rfl
  · next sen h =>
    have hi : i < ai.knowledge.length := (List.get?_eq_some.mp h).1
    split
    · dsimp only
      split
      · next h2 =>
        exfalso
        have hlen := knowledge_length_markSafeList
          ((sen.known_safes).filter
            (fun c => decide (c ∉ ai.safes ∧ c ∉ ai.moves_made))) ai
        have := List.get?_eq_none.mp h2
        omega
      · next sen2 h2 => rfl
    · dsimp only
      split
      · next h2 =>
        exfalso
        have := List.get?_eq_none.mp h2
        omega
      · next sen2 h2 => rfl

theorem foldl_processIndex_isSome (L : List ℕ) :
    ∀ ai : MinesweeperAI,
      ((L.foldl (fun o i => o.bind (fun a => processIndex a i)) (some ai))).isSome := by
  induction L with
  | nil => intro ai; rfl
  | cons hd tl ih =>
    intro ai
    rw [List.foldl_cons, Option.some_bind]
    rcases Option.isSome_iff_exists.mp (processIndex_isSome ai hd) with ⟨ai', h⟩
    rw [h]
    exact ih ai'

theorem resolveLoop_isSome (ai : MinesweeperAI) : (resolveLoop ai).isSome :=
  foldl_processIndex_isSome _ ai

theorem Sentence.eqPy_refl (s : Sentence) : Sentence.eqPy s s = true := by
  simp [Sentence.eqPy, List.Subset.refl]

theorem clean_loop_isSome :
    ∀ (fuel : ℕ) (l : List Sentence) (k cnt : ℕ), l.length ≤ k + fuel →
      (clean_loop fuel l k cnt).isSome := by
  intro fuel
  induction fuel with
  | zero =>
    intro l k cnt hle
    rw [clean_loop]
    rw [if_neg (by omega)]
    rfl
  | succ fuel' ih =>
    intro l k cnt hle
    rw [clean_loop]
    by_cases hk : k < l.length
    · rw [dif_pos hk]
      by_cases hempty : (l.get ⟨k, hk⟩).cells = []
      · rw [if_pos hempty]
        have hany : l.any (fun y => Sentence.eqPy y (l.get ⟨k, hk⟩)) = true :=
          List.any_eq_true.mpr ⟨l.get ⟨k, hk⟩, List.get_mem _ _ _,
            Sentence.eqPy_refl _⟩
        rw [if_pos hany]
        refine ih _ (k + 1) (cnt + 1) ?_
        have := (List.eraseP_sublist l
          (p := fun y => Sentence.eqPy y (l.get ⟨k, hk⟩))).length_le
        omega
      · rw [if_neg hempty]
        exact ih l (k + 1) cnt (by omega)
    · rw [dif_neg hk]
      rfl

theorem clean_knowledge_isSome (ai : MinesweeperAI) :
    (ai.clean_knowledge).isSome := by
  unfold MinesweeperAI.clean_knowledge
  rcases Option.isSome_iff_exists.mp
    (clean_loop_isSome (ai.knowledge.length + 1) ai.knowledge 0 0 (by omega)) with ⟨lc, h⟩
  rw [h]
  rfl

theorem add_knowledge_isSome (ai : MinesweeperAI) (cell : Coord) (count : ℤ) :
    (ai.add_knowledge cell count).isSome := by
  rw [MinesweeperAI.add_knowledge]
  rcases Option.isSome_iff_exists.mp (processIndex_isSome
    ((ai.record_and_mark cell).append_new_sentence cell count)
    (((ai.record_and_mark cell).append_new_sentence cell count).knowledge.length - 1))
    with ⟨ai3, h3⟩
  rw [h3, Option.some_bind]
  rcases Option.isSome_iff_exists.mp (resolveLoop_isSome ai3.extend_inferred)
    with ⟨ai5, h5⟩
  rw [h5, Option.some_bind]
  rcases Option.isSome_iff_exists.mp (clean_knowledge_isSome ai5) with ⟨lc, h6⟩
  rw [h6]
  rfl

theorem runTrace_isSome (tr : List (Coord × ℤ)) :
    ∀ ai : MinesweeperAI, (runTrace ai tr).isSome := by
  induction tr with
  | nil => intro ai; rfl
  | cons hd tl ih =>
    intro ai
    unfold runTrace at ih ⊢
    rw [List.foldl_cons, Option.some_bind]
    rcases Option.isSome_iff_exists.mp (add_knowledge_isSome ai hd.1 hd.2) with ⟨ai', h⟩
    rw [h]
    exact ih ai'

/-- C3: every sequence of observations consistent with a fixed board runs to
completion — every `add_knowledge` call returns a state and none of the
modelled raise-points (`none`) is ever reached. -/
theorem add_observation_no_exception (b : Minesweeper) (tr : List (Coord × ℤ))
    (_hcons : Consistent b tr) :
    (runTrace (initAI b.height b.width) tr).isSome :=
  runTrace_isSome tr _

/-- Witness for C3: the four-observation trace on the 2×3 board with mine
`(0,1)` is consistent and its run returns a state. -/
theorem add_observation_no_exception_witness :
    Consistent ⟨2, 3, [(0, 1)]⟩
      [((1, 0), 1), ((1, 1), 1), ((1, 2), 1), ((0, 0), 1)] ∧
    (runTrace (initAI 2 3)
      [((1, 0), 1), ((1, 1), 1), ((1, 2), 1), ((0, 0), 1)]).isSome :=
  ⟨by decide, add_observation_no_exception ⟨2, 3, [(0, 1)]⟩
    [((1, 0), 1), ((1, 1), 1), ((1, 2), 1), ((0, 0), 1)] (by decide)⟩

/-! ## C4: resolved cells are disjoint and absent from all constraints

The invariant is proved for any run consistent with a fixed board; it bundles
soundness (`safes` are true non-mines, `mines` are true mines, every sentence's
count is the true number of mines among its cells), which the marking steps
need in order to stay sound. -/

/-- Number of true mines of board `b` among a list of cells. -/
def mineCountL (b : Minesweeper) (l : List Coord) : ℕ :=
  l.countP (fun c => decide (c ∈ b.mines))

theorem Sentence.mark_safe_cells (c : Coord) (s : Sentence) :
    (Sentence.mark_safe c s).cells =
      if c ∈ s.cells then s.cells.filter (fun x => decide (x ≠ c)) else s.cells := by
  unfold Sentence.mark_safe
  split <;> rfl

theorem Sentence.mark_safe_count (c : Coord) (s : Sentence) :
    (Sentence.mark_safe c s).count = s.count := by
  unfold Sentence.mark_safe
  split <;> rfl

theorem Sentence.mark_mine_cells (c : Coord) (s : Sentence) :
    (Sentence.mark_mine c s).cells =
      if c ∈ s.cells then s.cells.filter (fun x => decide (x ≠ c)) else s.cells := by
  unfold Sentence.mark_mine
  split <;> rfl

theorem Sentence.mark_mine_count (c : Coord) (s : Sentence) :
    (Sentence.mark_mine c s).count =
      if c ∈ s.cells then s.count - 1 else s.count := by
  unfold Sentence.mark_mine
  split <;> rfl

theorem countP_filter_ne_of_false {l : List Coord} {c : Coord} {P : Coord → Bool}
    (hc : P c = false) :
    (l.filter (fun x => decide (x ≠ c))).countP P = l.countP P := by
  induction l with
  | nil => rfl
  | cons hd tl ih =>
    rw [List.filter_cons]
    by_cases hdc : hd = c
    · subst hdc
      rw [if_neg (by simp), ih, List.countP_cons, hc]
      simp
    · rw [if_pos (by simp [hdc]), List.countP_cons, List.countP_cons, ih]

theorem countP_filter_ne_of_mem {l : List Coord} {c : Coord} {P : Coord → Bool}
    (hl : l.Nodup) (hc : c ∈ l) (hP : P c = true) :
    (l.filter (fun x => decide (x ≠ c))).countP P + 1 = l.countP P := by
  induction l with
  | nil => cases hc
  | cons hd tl ih =>
    rcases List.nodup_cons.mp hl with ⟨hhd, htl⟩
    rw [List.filter_cons]
    by_cases hdc : hd = c
    · subst hdc
      have hrest : tl.filter (fun x => decide (x ≠ hd)) = tl :=
        List.filter_eq_self.mpr (fun x hx => by
          simp only [decide_eq_true_eq]
          rintro rfl
          exact hhd hx)
      rw [if_neg (by simp), hrest, List.countP_cons, hP]
      simp
    · rcases List.mem_cons.mp hc with h | h
      · exact absurd h.symm hdc
      · have hih := ih htl h
        rw [if_pos (by simp [hdc]), List.countP_cons, List.countP_cons]
        cases hph : P hd <;> simp [hph] at hih ⊢ <;> omega

theorem countP_union_split {α : Type} (l : List α) (A D K : α → Bool)
    (h : ∀ p ∈ l, A p = (D p || K p)) (hx : ∀ p ∈ l, ¬(D p = true ∧ K p = true)) :
    l.countP A = l.countP D + l.countP K := by
  induction l with
  | nil => rfl
  | cons hd tl ih =>
    have hh := h hd (List.mem_cons_self _ _)
    have hxh := hx hd (List.mem_cons_self _ _)
    have ih' := ih (fun p hp => h p (List.mem_cons_of_mem _ hp))
      (fun p hp => hx p (List.mem_cons_of_mem _ hp))
    simp only [List.countP_cons, ih']
    cases hD : D hd <;> cases hK : K hd <;> simp [hD, hK] at hh hxh ⊢ <;> simp [hh] <;> omega

/-- The run invariant tying the engine state to the fixed board `b`. -/
structure EngineInv (b : Minesweeper) (ai : MinesweeperAI) : Prop where
  safes_ok : ∀ c ∈ ai.safes, c ∉ b.mines
  mines_ok : ∀ c ∈ ai.mines, c ∈ b.mines
  res_safe : ∀ s ∈ ai.knowledge, ∀ c ∈ s.cells, c ∉ ai.safes
  res_mine : ∀ s ∈ ai.knowledge, ∀ c ∈ s.cells, c ∉ ai.mines
  counts : ∀ s ∈ ai.knowledge, s.count = (mineCountL b s.cells : ℤ)
  nodups : ∀ s ∈ ai.knowledge, s.cells.Nodup
  moves_sub : ∀ c ∈ ai.moves_made, c ∈ ai.safes
  dims_h : ai.height = b.height
  dims_w : ai.width = b.width

theorem inv_initAI (b : Minesweeper) : EngineInv b (initAI b.height b.width) := by
  refine ⟨?_, ?_, ?_, ?_, ?_, ?_, ?_, rfl, rfl⟩ <;> intro c hc <;> cases hc

theorem inv_mark_safe {b : Minesweeper} {ai : MinesweeperAI} {c : Coord}
    (hinv : EngineInv b ai) (hc : c ∉ b.mines) : EngineInv b (ai.mark_safe c) := by
  obtain ⟨h1, h2, h3, h4, h5, h6, h7, h8, h9⟩ := hinv
  refine ⟨?_, ?_, ?_, ?_, ?_, ?_, ?_, h8, h9⟩
  · intro x hx
    rcases mem_addElem.mp hx with rfl | hx'
    · exact hc
    · exact h1 x hx'
  · exact h2
  · intro s hs x hx
    rcases List.mem_map.mp hs with ⟨s0, hs0, rfl⟩
    rw [Sentence.mark_safe_cells] at hx
    have hmem : x ∈ s0.cells ∧ x ≠ c := by
      split at hx
      · have := List.mem_filter.mp hx
        exact ⟨this.1, by simpa using this.2⟩
      · next hcn => exact ⟨hx, fun hxc => hcn (hxc ▸ hx)⟩
    intro hxs
    rcases mem_addElem.mp hxs with rfl | hxs'
    · exact hmem.2 rfl
    · exact h3 s0 hs0 x hmem.1 hxs'
  · intro s hs x hx
    rcases List.mem_map.mp hs with ⟨s0, hs0, rfl⟩
    rw [Sentence.mark_safe_cells] at hx
    have hmem : x ∈ s0.cells := by
      split at hx
      · exact (List.mem_filter.mp hx).1
      · exact hx
    exact h4 s0 hs0 x hmem
  · intro s hs
    rcases List.mem_map.mp hs with ⟨s0, hs0, rfl⟩
    rw [Sentence.mark_safe_count, Sentence.mark_safe_cells, h5 s0 hs0]
    unfold mineCountL
    split
    · rw [countP_filter_ne_of_false (by simpa using hc)]
    · rfl
  · intro s hs
    rcases List.mem_map.mp hs with ⟨s0, hs0, rfl⟩
    rw [Sentence.mark_safe_cells]
    split
    · exact (h6 s0 hs0).filter _
    · exact h6 s0 hs0
  · intro x hx
    exact mem_addElem.mpr (Or.inr (h7 x hx))

theorem inv_mark_mine {b : Minesweeper} {ai : MinesweeperAI} {c : Coord}
    (hinv : EngineInv b ai) (hc : c ∈ b.mines) : EngineInv b (ai.mark_mine c) := by
  obtain ⟨h1, h2, h3, h4, h5, h6, h7, h8, h9⟩ := hinv
  refine ⟨?_, ?_, ?_, ?_, ?_, ?_, ?_, h8, h9⟩
  · exact h1
  · intro x hx
    rcases mem_addElem.mp hx with rfl | hx'
    · exact hc
    · exact h2 x hx'
  · intro s hs x hx
    rcases List.mem_map.mp hs with ⟨s0, hs0, rfl⟩
    rw [Sentence.mark_mine_cells] at hx
    have hmem : x ∈ s0.cells := by
      split at hx
      · exact (List.mem_filter.mp hx).1
      · exact hx
    exact h3 s0 hs0 x hmem
  · intro s hs x hx
    rcases List.mem_map.mp hs with ⟨s0, hs0, rfl⟩
    rw [Sentence.mark_mine_cells] at hx
    have hmem : x ∈ s0.cells ∧ x ≠ c := by
      split at hx
      · have := List.mem_filter.mp hx
        exact ⟨this.1, by simpa using this.2⟩
      · next hcn => exact ⟨hx, fun hxc => hcn (hxc ▸ hx)⟩
    intro hxs
    rcases mem_addElem.mp hxs with rfl | hxs'
    · exact hmem.2 rfl
    · exact h4 s0 hs0 x hmem.1 hxs'
  · intro s hs
    rcases List.mem_map.mp hs with ⟨s0, hs0, rfl⟩
    rw [Sentence.mark_mine_count, Sentence.mark_mine_cells, h5 s0 hs0]
    unfold mineCountL
    split
    · next hcmem =>
      have := countP_filter_ne_of_mem (h6 s0 hs0) hcmem
        (P := fun x => decide (x ∈ b.mines)) (by simpa using hc)
      omega
    · rfl
  · intro s hs
    rcases List.mem_map.mp hs with ⟨s0, hs0, rfl⟩
    rw [Sentence.mark_mine_cells]
    split
    · exact (h6 s0 hs0).filter _
    · exact h6 s0 hs0
  · exact h7

theorem inv_markSafeList {b : Minesweeper} (L : List Coord) :
    ∀ {ai : MinesweeperAI}, EngineInv b ai → (∀ c ∈ L, c ∉ b.mines) →
      EngineInv b (markSafeList ai L) := by
  induction L with
  | nil => intro ai h _; exact h
  | cons hd tl ih =>
    intro ai h hL
    unfold markSafeList at ih ⊢
    rw [List.foldl_cons]
    exact ih (inv_mark_safe h (hL hd (List.mem_cons_self _ _)))
      (fun c hc => hL c (List.mem_cons_of_mem _ hc))

theorem inv_markMineList {b : Minesweeper} (L : List Coord) :
    ∀ {ai : MinesweeperAI}, EngineInv b ai → (∀ c ∈ L, c ∈ b.mines) →
      EngineInv b (markMineList ai L) := by
  induction L with
  | nil => intro ai h _; exact h
  | cons hd tl ih =>
    intro ai h hL
    unfold markMineList at ih ⊢
    rw [List.foldl_cons]
    exact ih (inv_mark_mine h (hL hd (List.mem_cons_self _ _)))
      (fun c hc => hL c (List.mem_cons_of_mem _ hc))

theorem known_safes_not_mine {b : Minesweeper} {ai : MinesweeperAI} {s : Sentence}
    (hinv : EngineInv b ai) (hs : s ∈ ai.knowledge) :
    ∀ c ∈ s.known_safes, c ∉ b.mines := by
  intro c hc
  unfold Sentence.known_safes at hc
  split at hc
  · next hcond =>
    have hcnt := hinv.counts s hs
    rw [hcond.1] at hcnt
    have : mineCountL b s.cells = 0 := by exact_mod_cast hcnt.symm
    have hall := List.countP_eq_zero.mp this
    simpa using hall c hc
  · cases hc

theorem known_mines_are_mines {b : Minesweeper} {ai : MinesweeperAI} {s : Sentence}
    (hinv : EngineInv b ai) (hs : s ∈ ai.knowledge) :
    ∀ c ∈ s.known_mines, c ∈ b.mines := by
  intro c hc
  unfold Sentence.known_mines at hc
  split at hc
  · next hcond =>
    have hcnt := hinv.counts s hs
    rw [← hcond] at hcnt
    have : s.cells.countP (fun x => decide (x ∈ b.mines)) = s.cells.length := by
      exact_mod_cast hcnt.symm
    have hall := List.countP_eq_length.mp this
    simpa using hall c hc
  · cases hc

theorem inferredPairs_nil (kl : List Sentence) : inferredPairs kl = [] := by
  unfold inferredPairs
  have hinner : ∀ (i : ℕ) (js : List ℕ) (acc : List Sentence),
      js.foldl (fun acc2 j =>
        match kl.get? i, kl.get? j with
        | some s1, some s2 =>
          if cellsInCells s1.cells s2.cells then
            acc2 ++ [⟨s2.cells.filter (fun x => decide (x ∉ s1.cells)),
                      s2.count - s1.count⟩]
          else if cellsInCells s2.cells s1.cells then
            acc2 ++ [⟨s1.cells.filter (fun x => decide (x ∉ s2.cells)),
                      s1.count - s2.count⟩]
          else acc2
        | _, _ => acc2) acc = acc := by
    intro i js
    induction js with
    | nil => intro acc; rfl
    | cons hd tl ih =>
      intro acc
      rw [List.foldl_cons]
      have hstep : (match kl.get? i, kl.get? hd with
        | some s1, some s2 =>
          if cellsInCells s1.cells s2.cells then
            acc ++ [⟨s2.cells.filter (fun x => decide (x ∉ s1.cells)),
                      s2.count - s1.count⟩]
          else if cellsInCells s2.cells s1.cells then
            acc ++ [⟨s1.cells.filter (fun x => decide (x ∉ s2.cells)),
                      s1.count - s2.count⟩]
          else acc
        | _, _ => acc) = acc := by
        cases kl.get? i <;> cases kl.get? hd <;> simp [cellsInCells]
      rw [hstep]
      exact ih acc
  have houter : ∀ (is : List ℕ) (acc : List Sentence),
      is.foldl (fun acc i =>
        (List.range' (i + 1) (kl.length - (i + 1))).foldl
          (fun acc2 j =>
            match kl.get? i, kl.get? j with
            | some s1, some s2 =>
              if cellsInCells s1.cells s2.cells then
                acc2 ++ [⟨s2.cells.filter (fun x => decide (x ∉ s1.cells)),
                          s2.count - s1.count⟩]
              else if cellsInCells s2.cells s1.cells then
                acc2 ++ [⟨s1.cells.filter (fun x => decide (x ∉ s2.cells)),
                          s1.count - s2.count⟩]
              else acc2
            | _, _ => acc2) acc) acc = acc := by
    intro is
    induction is with
    | nil => intro acc; rfl
    | cons hd tl ih =>
      intro acc
      rw [List.foldl_cons, hinner hd _ acc]
      exact ih acc
  exact houter _ []

theorem extend_inferred_eq (ai : MinesweeperAI) : ai.extend_inferred = ai := by
  unfold MinesweeperAI.extend_inferred
  rw [inferredPairs_nil, List.append_nil]

theorem clean_loop_mem :
    ∀ (fuel : ℕ) (l : List Sentence) (k cnt : ℕ) (res : List Sentence × ℕ),
      clean_loop fuel l k cnt = some res → ∀ s ∈ res.1, s ∈ l := by
  intro fuel
  induction fuel with
  | zero =>
    intro l k cnt res h s hs
    rw [clean_loop] at h
    split at h
    · cases h
    · cases h
      exact hs
  | succ fuel' ih =>
    intro l k cnt res h s hs
    rw [clean_loop] at h
    split at h
    · split at h
      · split at h
        · exact (List.eraseP_sublist l).subset (ih _ _ _ _ h s hs)
        · cases h
      · exact ih _ _ _ _ h s hs
    · cases h
      exact hs

theorem inv_processIndex {b : Minesweeper} {ai ai' : MinesweeperAI} {i : ℕ}
    (hinv : EngineInv b ai) (h : processIndex ai i = some ai') :
    EngineInv b ai' := by
  unfold processIndex at h
  split at h
  · cases h
    exact hinv
  · next sen hget =>
    have hsen : sen ∈ ai.knowledge := List.get?_mem hget
    have hai2 : EngineInv b (if sen.known_safes ≠ [] then
        markSafeList ai ((sen.known_safes).filter
          (fun c => decide (c ∉ ai.safes ∧ c ∉ ai.moves_made)))
      else ai) := by
      split
      · refine inv_markSafeList _ hinv ?_
        intro c hc
        exact known_safes_not_mine hinv hsen c (List.mem_filter.mp hc).1
      · exact hinv
    dsimp only at h
    split at h
    · cases h
    · next sen2 hget2 =>
      cases h
      have hsen2 : sen2 ∈ (if sen.known_safes ≠ [] then
          markSafeList ai ((sen.known_safes).filter
            (fun c => decide (c ∉ ai.safes ∧ c ∉ ai.moves_made)))
        else ai).knowledge := List.get?_mem hget2
      split
      · refine inv_markMineList _ hai2 ?_
        intro c hc
        exact known_mines_are_mines hai2 hsen2 c (List.mem_filter.mp hc).1
      · exact hai2

theorem foldl_bind_none (L : List ℕ) :
    L.foldl (fun o i => o.bind (fun a => processIndex a i)) none = none := by
  induction L with
  | nil => rfl
  | cons hd tl ih =>
    rw [List.foldl_cons, Option.none_bind]
    exact ih

theorem inv_foldl_processIndex {b : Minesweeper} (L : List ℕ) :
    ∀ {ai ai' : MinesweeperAI}, EngineInv b ai →
      L.foldl (fun o i => o.bind (fun a => processIndex a i)) (some ai) = some ai' →
      EngineInv b ai' := by
  induction L with
  | nil =>
    intro ai ai' hinv h
    rw [List.foldl_nil] at h
    cases h
    exact hinv
  | cons hd tl ih =>
    intro ai ai' hinv h
    rw [List.foldl_cons, Option.some_bind] at h
    cases hp : processIndex ai hd with
    | none =>
      rw [hp, foldl_bind_none] at h
      cases h
    | some a2 =>
      rw [hp] at h
      exact ih (inv_processIndex hinv hp) h

theorem inv_resolveLoop {b : Minesweeper} {ai ai' : MinesweeperAI}
    (hinv : EngineInv b ai) (h : resolveLoop ai = some ai') : EngineInv b ai' :=
  inv_foldl_processIndex _ hinv h

theorem inv_record_and_mark {b : Minesweeper} {ai : MinesweeperAI} {cell : Coord}
    (hinv : EngineInv b ai) (hc : cell ∉ b.mines) :
    EngineInv b (ai.record_and_mark cell) := by
  have hms := inv_mark_safe hinv hc
  refine ⟨hms.safes_ok, hms.mines_ok, hms.res_safe, hms.res_mine, hms.counts,
    hms.nodups, ?_, hms.dims_h, hms.dims_w⟩
  intro x hx
  rcases mem_addElem.mp hx with rfl | hx'
  · exact mem_addElem.mpr (Or.inl rfl)
  · exact mem_addElem.mpr (Or.inr (hinv.moves_sub x hx'))

theorem inv_append_new_sentence {b : Minesweeper} {ai : MinesweeperAI}
    {cell : Coord} {count : ℤ} (hinv : EngineInv b ai)
    (hcount : count = b.nearby_mines cell) :
    EngineInv b (ai.append_new_sentence cell count) := by
  obtain ⟨h1, h2, h3, h4, h5, h6, h7, h8, h9⟩ := hinv
  have hsplit : (squareAround cell).countP
        (fun p => decide (p ≠ cell ∧ inGrid b.height b.width p ∧ p ∈ b.mines)) =
      (squareAround cell).countP (fun p => decide (decrP ai cell p)) +
      (squareAround cell).countP
        (fun p => decide (p ∈ b.mines) && decide (keepP ai cell p)) := by
    apply countP_union_split
    · intro p _
      rw [Bool.eq_iff_iff]
      simp only [decide_eq_true_eq, Bool.or_eq_true, Bool.and_eq_true]
      constructor
      · rintro ⟨hne, hg, hm⟩
        have hsafe : p ∉ ai.safes := fun hs => h1 p hs hm
        have hmoves : p ∉ ai.moves_made := fun hmv => hsafe (h7 p hmv)
        have hgai : inGrid ai.height ai.width p := by rw [h8, h9]; exact hg
        by_cases hpm : p ∈ ai.mines
        · exact Or.inl ⟨hgai, hmoves, hne, hsafe, hpm⟩
        · exact Or.inr ⟨hm, hgai, hmoves, hne, hsafe, hpm⟩
      · rintro (⟨hg, hmv, hne, hs, hpm⟩ | ⟨hm, hg, hmv, hne, hs, hpm⟩)
        · exact ⟨hne, by rw [← h8, ← h9]; exact hg, h2 p hpm⟩
        · exact ⟨hne, by rw [← h8, ← h9]; exact hg, hm⟩
    · intro p _
      rintro ⟨hD, hK⟩
      simp only [decide_eq_true_eq, Bool.and_eq_true] at hD hK
      exact hK.2.2.2.2.2 hD.2.2.2.2
  refine ⟨h1, h2, ?_, ?_, ?_, ?_, h7, h8, h9⟩
  · intro s hs c hc
    rcases List.mem_append.mp hs with hs' | hs'
    · exact h3 s hs' c hc
    · rw [List.mem_singleton] at hs'
      subst hs'
      rw [buildSur_eq] at hc
      have := List.mem_filter.mp hc
      simp only [decide_eq_true_eq] at this
      exact this.2.2.2.2.1
  · intro s hs c hc
    rcases List.mem_append.mp hs with hs' | hs'
    · exact h4 s hs' c hc
    · rw [List.mem_singleton] at hs'
      subst hs'
      rw [buildSur_eq] at hc
      have := List.mem_filter.mp hc
      simp only [decide_eq_true_eq] at this
      exact this.2.2.2.2.2
  · intro s hs
    rcases List.mem_append.mp hs with hs' | hs'
    · exact h5 s hs'
    · rw [List.mem_singleton] at hs'
      subst hs'
      show (buildSur ai cell count).2 = _
      rw [buildSur_eq]
      dsimp only
      unfold mineCountL
      rw [List.countP_filter, hcount]
      unfold Minesweeper.nearby_mines
      rw [hsplit]
      push_cast
      ring
  · intro s hs
    rcases List.mem_append.mp hs with hs' | hs'
    · exact h6 s hs'
    · rw [List.mem_singleton] at hs'
      subst hs'
      show (buildSur ai cell count).1.Nodup
      rw [buildSur_eq]
      dsimp only
      exact (nodup_squareAround cell).filter _

theorem inv_clean {b : Minesweeper} {ai : MinesweeperAI} {res : List Sentence × ℕ}
    (hinv : EngineInv b ai)
    (h : clean_loop (ai.knowledge.length + 1) ai.knowledge 0 0 = some res) :
    EngineInv b { ai with knowledge := res.1 } := by
  have hmem : ∀ s ∈ res.1, s ∈ ai.knowledge := clean_loop_mem _ _ _ _ _ h
  exact ⟨hinv.safes_ok, hinv.mines_ok,
    fun s hs => hinv.res_safe s (hmem s hs),
    fun s hs => hinv.res_mine s (hmem s hs),
    fun s hs => hinv.counts s (hmem s hs),
    fun s hs => hinv.nodups s (hmem s hs),
    hinv.moves_sub, hinv.dims_h, hinv.dims_w⟩

theorem inv_add_knowledge {b : Minesweeper} {ai ai' : MinesweeperAI}
    {cell : Coord} {count : ℤ} (hinv : EngineInv b ai) (hc : cell ∉ b.mines)
    (hcount : count = b.nearby_mines cell)
    (h : ai.add_knowledge cell count = some ai') : EngineInv b ai' := by
  rw [MinesweeperAI.add_knowledge] at h
  have hinv2 : EngineInv b ((ai.record_and_mark cell).append_new_sentence cell count) :=
    inv_append_new_sentence (inv_record_and_mark hinv hc) hcount
  cases hp : processIndex ((ai.record_and_mark cell).append_new_sentence cell count)
      (((ai.record_and_mark cell).append_new_sentence cell count).knowledge.length - 1) with
  | none => rw [hp, Option.none_bind] at h; cases h
  | some ai3 =>
    rw [hp, Option.some_bind, extend_inferred_eq] at h
    have hinv3 : EngineInv b ai3 := inv_processIndex hinv2 hp
    cases hr : resolveLoop ai3 with
    | none => rw [hr, Option.none_bind] at h; cases h
    | some ai5 =>
      rw [hr, Option.some_bind] at h
      have hinv5 : EngineInv b ai5 := inv_resolveLoop hinv3 hr
      unfold MinesweeperAI.clean_knowledge at h
      cases hcl : clean_loop (ai5.knowledge.length + 1) ai5.knowledge 0 0 with
      | none => rw [hcl] at h; cases h
      | some res =>
        rw [hcl] at h
        simp only [Option.map_some'] at h
        cases h
        exact inv_clean hinv5 hcl

theorem inv_runTrace {b : Minesweeper} (tr : List (Coord × ℤ)) :
    ∀ {ai ai' : MinesweeperAI}, EngineInv b ai → Consistent b tr →
      runTrace ai tr = some ai' → EngineInv b ai' := by
  induction tr with
  | nil =>
    intro ai ai' hinv _ h
    cases h
    exact hinv
  | cons hd tl ih =>
    intro ai ai' hinv hcons h
    unfold runTrace at h
    rw [List.foldl_cons, Option.some_bind] at h
    rcases Option.isSome_iff_exists.mp (add_knowledge_isSome ai hd.1 hd.2)
      with ⟨a2, ha⟩
    rw [ha] at h
    have hhd := hcons hd (List.mem_cons_self _ _)
    have htl : Consistent b tl := fun p hp => hcons p (List.mem_cons_of_mem _ hp)
    exact ih (inv_add_knowledge hinv hhd.2.1 hhd.2.2 ha) htl h

/-- C4: after any sequence of observations consistent with a fixed board,
`safes` and `mines` are disjoint, and no resolved coordinate (member of
`safes` or `mines`) occurs in the cells of any sentence of the knowledge
base. -/
theorem resolved_cells_invariant (b : Minesweeper) (tr : List (Coord × ℤ))
    (hcons : Consistent b tr) (ai' : MinesweeperAI)
    (h : runTrace (initAI b.height b.width) tr = some ai') :
    (∀ c : Coord, ¬(c ∈ ai'.safes ∧ c ∈ ai'.mines)) ∧
    (∀ s ∈ ai'.knowledge, ∀ c ∈ s.cells, c ∉ ai'.safes ∧ c ∉ ai'.mines) := by
  have hinv := inv_runTrace tr (inv_initAI b) hcons h
  exact ⟨fun c hcm => hinv.safes_ok c hcm.1 (hinv.mines_ok c hcm.2),
    fun s hs c hc => ⟨hinv.res_safe s hs c hc, hinv.res_mine s hs c hc⟩⟩

/-- Witness for C4: the four-observation consistent trace on the 2×3 board,
with the disjointness and removal conclusions for its final state. -/
theorem resolved_cells_invariant_witness :
    Consistent ⟨2, 3, [(0, 1)]⟩
      [((1, 0), 1), ((1, 1), 1), ((1, 2), 1), ((0, 0), 1)] ∧
    (∀ c : Coord, ¬(c ∈ aiC7.safes ∧ c ∈ aiC7.mines)) ∧
    (∀ s ∈ aiC7.knowledge, ∀ c ∈ s.cells, c ∉ aiC7.safes ∧ c ∉ aiC7.mines) :=
  ⟨by decide,
    resolved_cells_invariant ⟨2, 3, [(0, 1)]⟩
      [((1, 0), 1), ((1, 1), 1), ((1, 2), 1), ((0, 0), 1)] (by decide) aiC7
      runTrace_C7⟩
